import Mathlib

/-!
# Verification of `github_branch_manager.py`

A shallow embedding of the stale-branch manager: the data model (issues /
pull requests, git references, repositories), the staleness filter
`get_prs_branches_to_be_deleted`, and the two action drivers
`label_stale_branches` and `delete_stale_branches`.

Modelling conventions:
* Timestamps are integers counted in hours (the cutoff arithmetic in the
  source uses `relativedelta(hours=date_period)`, so one hour is the natural
  unit).
* The GitHub search API is modelled as filtering the repository's issue
  list with the predicates of the query string.  PyGithub compares issues
  by URL (`CompletableGithubObject.__eq__`), i.e. by entity identity, which
  we model as equality of issue numbers within a repository (`sameIssue`).
* `Issue.as_pull_request` raises for a plain issue (the GET of
  `/pulls/{number}` returns 404); we model this as an `Except` error.
* `Repository.get_git_ref` raises `UnknownObjectException` when the
  reference does not exist; modelled as an error that aborts the run, as an
  uncaught Python exception would.
* Side effects and log lines are recorded as explicit traces so that
  dry-run and effect claims can be stated.
-/

/-- An issue or pull request.  `number` is the entity identity within its
repository (PyGithub equality is by API URL, which is determined by the
repository and the number).  `headRef` is meaningful only when `isPR`. -/
structure Issue where
  number : Nat
  createdAt : Int
  isOpen : Bool
  labels : List String
  isPR : Bool
  headRef : String
  deriving Repr, DecidableEq

/-- A repository: qualified name, display name, its issues/PRs and its git
references (`heads/<branch>` paths paired with the commit SHA). -/
structure Repo where
  fullName : String
  name : String
  issues : List Issue
  refs : List (String × String)
  deriving Repr, DecidableEq

/-- The organization state seen by one run: the list of repositories. -/
structure World where
  repos : List Repo
  deriving Repr, DecidableEq

/-- The manager state built by `GithubBranchManager.__init__`:
`end_date = date.today() - relativedelta(hours=date_period)` and the
dry-run flag. -/
structure Manager where
  endDate : Int
  dryRun : Bool
  deriving Repr, DecidableEq

/-- `GithubBranchManager.__init__`: the cutoff is today's date minus
`date_period` interpreted as HOURS (`relativedelta(hours=date_period)`);
`today` is the midnight timestamp of the current day, in hours. -/
def mkManager (today : Int) (datePeriod : Int) (dryRun : Bool) : Manager :=
  { endDate := today - datePeriod, dryRun := dryRun }

/-- The documented reading of `--date-period` ("in months"): subtracting
`datePeriod` calendar months, a month lasting `monthHours` hours (any
calendar month is at least 28 days = 672 hours). -/
def monthsCutoff (today : Int) (datePeriod : Int) (monthHours : Int) : Int :=
  today - datePeriod * monthHours

/-- A GitHub issue-search query, as built by string formatting in
`get_prs_branches_to_be_deleted`: `repo:` scope, `is:open`,
`created:<cutoff`, an optional `label:` clause, and whether the
`(is:issue OR is:pull-request)` clause is present (it matches every
search result, so it does not constrain the filter). -/
structure SearchQuery where
  repoFullName : String
  createdBefore : Int
  labelFilter : Option String
  kindClause : Bool
  deriving Repr, DecidableEq

/-- The `query_older_issues` string of line 38. -/
def olderQuery (fullName : String) (endDate : Int) : SearchQuery :=
  { repoFullName := fullName, createdBefore := endDate,
    labelFilter := none, kindClause := true }

/-- The `query_issues_labelled_do_not_delete` string of line 39. -/
def protectedQuery (fullName : String) (endDate : Int) : SearchQuery :=
  { repoFullName := fullName, createdBefore := endDate,
    labelFilter := some "do-not-delete", kindClause := true }

/-- Whether one issue matches a search query: open, created strictly
before the cutoff, and carrying the label when the query has a `label:`
clause. -/
def matchesQuery (q : SearchQuery) (i : Issue) : Bool :=
  i.isOpen && decide (i.createdAt < q.createdBefore) &&
    (match q.labelFilter with
     | none => true
     | some l => i.labels.contains l)

/-- `github_obj.search_issues(query)` scoped to one repository: filter the
repository's issues by the query predicates, in the repository's order. -/
def runSearch (r : Repo) (q : SearchQuery) : List Issue :=
  r.issues.filter (matchesQuery q)

/-- PyGithub issue equality: `CompletableGithubObject.__eq__` compares API
URLs, i.e. entity identity; within one repository this is the issue
number.  This is what `x not in do_not_del_issues` uses. -/
def sameIssue (x y : Issue) : Bool :=
  x.number == y.number

/-- Line 43: `[x for x in issues_older_than_year if x not in do_not_del_issues]`. -/
def issuesToBeRemoved (m : Manager) (r : Repo) : List Issue :=
  (runSearch r (olderQuery r.fullName m.endDate)).filter
    (fun x => !((runSearch r (protectedQuery r.fullName m.endDate)).any
      (fun y => sameIssue x y)))

/-- Errors raised by the remote gateway: `as_pull_request` on a plain
issue (404), `get_pull` on a vanished number, `get_git_ref` on a deleted
reference. -/
inductive GithubError where
  | notPullRequest (number : Nat)
  | prNotFound (number : Nat)
  | refNotFound (branch : String)
  deriving Repr, DecidableEq

/-- Remote calls issued by the program.  `setLabels` and `deleteRef` are
the mutating ones; `searchIssues` is a read. -/
inductive Effect where
  | searchIssues (q : SearchQuery)
  | setLabels (repoName : String) (prNumber : Nat) (labels : List String)
  | deleteRef (repoName : String) (refPath : String)
  deriving Repr, DecidableEq

/-- Log lines emitted by the program, with their arguments. -/
inductive LogEntry where
  | processingRepo (name : String)
  | totalBranches (name : String) (count : Nat)
  | gettingBranches (name : String)
  | applyingLabel (prNumber : Nat) (repoName : String)
  | branchesLabeled (repoName : String) (branches : List String)
  | deletingOlder (endDate : Int) (repoName : String)
  | branchInfo (branch : String) (sha : String)
  deriving Repr, DecidableEq

/-- Is an effect a mutating remote call (label application or reference
deletion)? -/
def Effect.isMutating : Effect → Bool
  | .searchIssues _ => false
  | .setLabels _ _ _ => true
  | .deleteRef _ _ => true

/-- Is an effect a git-reference deletion? -/
def Effect.isDeleteRef : Effect → Bool
  | .deleteRef _ _ => true
  | _ => false

/-- `Issue.as_pull_request` (line 47): a GET of `/pulls/{number}`, which
succeeds exactly when the entity is a pull request. -/
def asPullRequest (i : Issue) : Except GithubError Issue :=
  if i.isPR then .ok i else .error (.notPullRequest i.number)

/-- The conversion loop of lines 46-50: convert every remaining issue to
its pull-request form and collect the head branch names, aborting at the
first plain issue (the exception discards the partially built lists). -/
def convertAll : List Issue → Except GithubError (List Issue × List String)
  | [] => .ok ([], [])
  | i :: rest =>
    match asPullRequest i with
    | .error e => .error e
    | .ok pr =>
      match convertAll rest with
      | .error e => .error e
      | .ok (ps, bs) => .ok (pr :: ps, pr.headRef :: bs)

/-- Result of the staleness filter: the (possibly failing) pair of lists,
plus the remote calls and log lines it produced. -/
structure FilterOut where
  result : Except GithubError (List Issue × List String)
  effects : List Effect
  logs : List LogEntry
  deriving Repr

/-- `get_prs_branches_to_be_deleted` (lines 34-52): run the two searches,
log, subtract the protected set by entity identity, convert to
pull-request form. -/
def get_prs_branches_to_be_deleted (m : Manager) (r : Repo) : FilterOut :=
  { result := convertAll (issuesToBeRemoved m r)
    effects := [.searchIssues (olderQuery r.fullName m.endDate),
                .searchIssues (protectedQuery r.fullName m.endDate)]
    logs := [.gettingBranches r.name] }

/-- `repo.get_pull(number)` (line 64): re-fetch the canonical PR object by
number from the current repository state. -/
def get_pull (r : Repo) (number : Nat) : Option Issue :=
  r.issues.find? (fun i => i.number == number)

/-- `pull_req.set_labels(...)` (line 67): REPLACE the label set of the
issue(s) with that number by exactly the given labels. -/
def setLabelsOnIssue (r : Repo) (number : Nat) (labels : List String) : Repo :=
  { r with
    issues := r.issues.map fun i =>
      if i.number == number then { i with labels := labels } else i }

/-- `repo.get_git_ref("heads/" + branch)` (line 82): look the reference up
by its full path, returning its SHA. -/
def get_git_ref (r : Repo) (refPath : String) : Option String :=
  (r.refs.find? (fun p => p.1 == refPath)).map (fun p => p.2)

/-- `branch.delete()` (line 85): remove the reference from the repository. -/
def deleteRefByName (r : Repo) (refPath : String) : Repo :=
  { r with refs := r.refs.filter (fun p => !(p.1 == refPath)) }

/-- The label the label driver applies (line 67). -/
def staleLabel : String := "will-be-deleted-within-a-week"

/-- Outcome of the inner label loop: updated repository, remote calls,
log lines, the `branches_labeled` accumulator, and the error that aborted
the loop, if any. -/
structure LoopOut where
  repo : Repo
  effects : List Effect
  logs : List LogEntry
  labeled : List String
  err : Option GithubError
  deriving Repr, DecidableEq

/-- The inner loop of `label_stale_branches` (lines 63-68): for every
candidate PR, re-fetch it by number, log, and unless dry-run replace its
labels and record its head branch. -/
def labelPRs (dryRun : Bool) : List Issue → Repo → LoopOut
  | [], r => ⟨r, [], [], [], none⟩
  | pr :: rest, r =>
    match get_pull r pr.number with
    | none => ⟨r, [], [], [], some (.prNotFound pr.number)⟩
    | some pullReq =>
      if dryRun then
        let o := labelPRs dryRun rest r
        ⟨o.repo, o.effects, .applyingLabel pr.number r.name :: o.logs,
          o.labeled, o.err⟩
      else
        let r1 := setLabelsOnIssue r pr.number [staleLabel]
        let o := labelPRs dryRun rest r1
        ⟨o.repo, .setLabels r.name pr.number [staleLabel] :: o.effects,
          .applyingLabel pr.number r.name :: o.logs,
          pullReq.headRef :: o.labeled, o.err⟩

/-- Outcome of processing one repository (or of the branch-deletion
loop): updated repository, remote calls, logs, error. -/
structure RepoOut where
  repo : Repo
  effects : List Effect
  logs : List LogEntry
  err : Option GithubError
  deriving Repr, DecidableEq

/-- One repository iteration of `label_stale_branches` (lines 55-70). -/
def labelRepo (m : Manager) (r : Repo) : RepoOut :=
  let logs0 : List LogEntry :=
    [.processingRepo r.name, .totalBranches r.name r.refs.length]
  let f := get_prs_branches_to_be_deleted m r
  match f.result with
  | .error e => ⟨r, f.effects, logs0 ++ f.logs, some e⟩
  | .ok (prs, _) =>
    let o := labelPRs m.dryRun prs r
    match o.err with
    | some e => ⟨o.repo, f.effects ++ o.effects, logs0 ++ f.logs ++ o.logs, some e⟩
    | none =>
      ⟨o.repo, f.effects ++ o.effects,
        logs0 ++ f.logs ++ o.logs ++ [.branchesLabeled r.name o.labeled], none⟩

/-- Outcome of the repository loop of a driver. -/
structure ReposOut where
  repos : List Repo
  effects : List Effect
  logs : List LogEntry
  err : Option GithubError
  deriving Repr, DecidableEq

/-- The repository loop of `label_stale_branches`: process repositories in
order; an uncaught exception aborts the remaining repositories. -/
def labelRepos (m : Manager) : List Repo → ReposOut
  | [] => ⟨[], [], [], none⟩
  | r :: rest =>
    let o := labelRepo m r
    match o.err with
    | some e => ⟨o.repo :: rest, o.effects, o.logs, some e⟩
    | none =>
      let o2 := labelRepos m rest
      ⟨o.repo :: o2.repos, o.effects ++ o2.effects, o.logs ++ o2.logs, o2.err⟩

/-- Outcome of one driver run: final organization state, remote-call
trace, log trace, and the uncaught error, if the run aborted. -/
structure RunOut where
  world : World
  effects : List Effect
  logs : List LogEntry
  error : Option GithubError
  deriving Repr, DecidableEq

/-- `label_stale_branches` (lines 54-70). -/
def label_stale_branches (m : Manager) (w : World) : RunOut :=
  let o := labelRepos m w.repos
  { world := { repos := o.repos }, effects := o.effects, logs := o.logs,
    error := o.err }

/-- The inner loop of `delete_stale_branches` (lines 81-85): resolve each
candidate branch reference, log its SHA, and unless dry-run delete it.  A
missing reference raises, aborting the loop. -/
def deleteBranches (dryRun : Bool) (repoName : String) :
    List String → Repo → RepoOut
  | [], r => ⟨r, [], [], none⟩
  | b :: rest, r =>
    match get_git_ref r ("heads/" ++ b) with
    | none => ⟨r, [], [], some (.refNotFound b)⟩
    | some sha =>
      if dryRun then
        let o := deleteBranches dryRun repoName rest r
        ⟨o.repo, o.effects, .branchInfo b sha :: o.logs, o.err⟩
      else
        let r1 := deleteRefByName r ("heads/" ++ b)
        let o := deleteBranches dryRun repoName rest r1
        ⟨o.repo, .deleteRef repoName ("heads/" ++ b) :: o.effects,
          .branchInfo b sha :: o.logs, o.err⟩

/-- One repository iteration of `delete_stale_branches` (lines 73-85). -/
def deleteRepo (m : Manager) (r : Repo) : RepoOut :=
  let logs0 : List LogEntry :=
    [.processingRepo r.name, .totalBranches r.name r.refs.length]
  let f := get_prs_branches_to_be_deleted m r
  match f.result with
  | .error e => ⟨r, f.effects, logs0 ++ f.logs, some e⟩
  | .ok (_, branches) =>
    let o := deleteBranches m.dryRun r.name branches r
    ⟨o.repo, f.effects ++ o.effects,
      logs0 ++ f.logs ++ [.deletingOlder m.endDate r.name] ++ o.logs, o.err⟩

/-- The repository loop of `delete_stale_branches`. -/
def deleteRepos (m : Manager) : List Repo → ReposOut
  | [] => ⟨[], [], [], none⟩
  | r :: rest =>
    let o := deleteRepo m r
    match o.err with
    | some e => ⟨o.repo :: rest, o.effects, o.logs, some e⟩
    | none =>
      let o2 := deleteRepos m rest
      ⟨o.repo :: o2.repos, o.effects ++ o2.effects, o.logs ++ o2.logs, o2.err⟩

/-- `delete_stale_branches` (lines 72-85). -/
def delete_stale_branches (m : Manager) (w : World) : RunOut :=
  let o := deleteRepos m w.repos
  { world := { repos := o.repos }, effects := o.effects, logs := o.logs,
    error := o.err }

/-- The net effect of the non-dry label loop on one issue: if its entity
identity is among the candidate identities, its label set is REPLACED by
exactly `[staleLabel]` (`set_labels` overwrites, it does not add);
otherwise the issue is untouched. -/
def relabelIssue (ns : List Nat) (i : Issue) : Issue :=
  if ns.contains i.number then { i with labels := [staleLabel] } else i

/-- The entity identities of the staleness-filter candidates of one
repository. -/
def candNumbers (m : Manager) (r : Repo) : List Nat :=
  (issuesToBeRemoved m r).map (fun i => i.number)

/-- The net effect of one successful non-dry label-driver iteration on a
repository. -/
def relabelRepo (m : Manager) (r : Repo) : Repo :=
  { r with issues := r.issues.map (relabelIssue (candNumbers m r)) }

/-- Erase the branch list carried by the per-repository
`branches_labeled` summary line — the only log line whose content depends
on the dry-run flag. -/
def scrubSummary : LogEntry → LogEntry
  | .branchesLabeled n _ => .branchesLabeled n []
  | e => e

/-! ### Concrete fixtures used by witnesses and counterexamples -/

/-- A stale open PR carrying some pre-existing labels. -/
def prStale : Issue :=
  { number := 1, createdAt := 100, isOpen := true,
    labels := ["bug", "help-wanted"], isPR := true, headRef := "feat-a" }

/-- A stale open PR protected by the `do-not-delete` label. -/
def prProtected : Issue :=
  { number := 2, createdAt := 100, isOpen := true,
    labels := ["do-not-delete"], isPR := true, headRef := "feat-b" }

/-- An open PR created after the cutoff. -/
def prFresh : Issue :=
  { number := 3, createdAt := 900, isOpen := true,
    labels := [], isPR := true, headRef := "feat-c" }

/-- A repository holding the three PRs above, with all head refs present. -/
def repoOne : Repo :=
  { fullName := "acme/widgets", name := "widgets",
    issues := [prStale, prProtected, prFresh],
    refs := [("heads/feat-a", "sha-a"), ("heads/feat-b", "sha-b"),
             ("heads/feat-c", "sha-c")] }

/-- A one-repository organization. -/
def worldOne : World := { repos := [repoOne] }

/-- Manager with cutoff 500, mutations enabled. -/
def mgrWet : Manager := { endDate := 500, dryRun := false }

/-- Manager with cutoff 500, dry-run. -/
def mgrDry : Manager := { endDate := 500, dryRun := true }

/-- A stale open PR whose head branch reference was already deleted
externally. -/
def prGone : Issue :=
  { number := 1, createdAt := 100, isOpen := true, labels := [],
    isPR := true, headRef := "gone" }

/-- A stale open PR whose head branch reference still exists. -/
def prKept : Issue :=
  { number := 2, createdAt := 100, isOpen := true, labels := [],
    isPR := true, headRef := "kept" }

/-- A repository where the first candidate branch reference is missing. -/
def repoMissingRef : Repo :=
  { fullName := "acme/app", name := "app", issues := [prGone, prKept],
    refs := [("heads/kept", "sha-k")] }

/-- A healthy sibling repository listed after `repoMissingRef`. -/
def repoAfter : Repo :=
  { fullName := "acme/lib", name := "lib",
    issues := [{ number := 7, createdAt := 100, isOpen := true, labels := [],
                 isPR := true, headRef := "feat-z" }],
    refs := [("heads/feat-z", "sha-z")] }

/-- Organization for the already-deleted-reference scenario. -/
def worldMissingRef : World := { repos := [repoMissingRef, repoAfter] }

/-! ## Lemmas about the staleness filter -/

theorem convertAll_ok (l : List Issue) (ps : List Issue) (bs : List String)
    (h : convertAll l = .ok (ps, bs)) :
    ps = l ∧ bs = l.map (fun i => i.headRef) ∧ ∀ i ∈ l, i.isPR = true := by
  induction l generalizing ps bs with
  | nil =>
    simp only [convertAll, Except.ok.injEq, Prod.mk.injEq] at h
    obtain ⟨h1, h2⟩ := h
    subst h1; subst h2
    simp
  | cons i rest ih =>
    by_cases hp : i.isPR = true
    · cases hrec : convertAll rest with
      | error e => simp [convertAll, asPullRequest, hp, hrec] at h
      | ok pr =>
        obtain ⟨ps2, bs2⟩ := pr
        simp only [convertAll, asPullRequest, hp, if_true, hrec,
          Except.ok.injEq, Prod.mk.injEq] at h
        obtain ⟨h1, h2⟩ := h
        obtain ⟨hA, hB, hC⟩ := ih ps2 bs2 hrec
        subst h1; subst h2; subst hA; subst hB
        refine ⟨rfl, rfl, ?_⟩
        intro j hj
        rcases List.mem_cons.mp hj with hj1 | hj1
        · subst hj1; exact hp
        · exact hC j hj1
    · simp [convertAll, asPullRequest, hp] at h

theorem filter_result_ok (m : Manager) (r : Repo) (prs : List Issue)
    (bs : List String)
    (h : (get_prs_branches_to_be_deleted m r).result = .ok (prs, bs)) :
    prs = issuesToBeRemoved m r ∧ bs = prs.map (fun i => i.headRef) ∧
      ∀ i ∈ prs, i.isPR = true := by
  have h2 : convertAll (issuesToBeRemoved m r) = .ok (prs, bs) := h
  obtain ⟨hA, hB, hC⟩ := convertAll_ok _ _ _ h2
  subst hA
  exact ⟨rfl, hB, hC⟩

theorem mem_issuesToBeRemoved (m : Manager) (r : Repo) (i : Issue) :
    i ∈ issuesToBeRemoved m r ↔
      i ∈ r.issues ∧ i.isOpen = true ∧ i.createdAt < m.endDate ∧
        ((runSearch r (protectedQuery r.fullName m.endDate)).any
          (fun y => sameIssue i y)) = false := by
  unfold issuesToBeRemoved
  rw [List.mem_filter]
  conv =>
    lhs
    lhs
    rw [runSearch, List.mem_filter]
  simp only [matchesQuery, olderQuery, Bool.and_eq_true, decide_eq_true_eq,
    Bool.and_true, Bool.not_eq_true']
  tauto

/-! ## Claim theorems: the staleness filter -/

/-- C1: an issue carrying the protective label `do-not-delete` at query
time is never in the candidate list returned by the staleness filter, even
when it satisfies the age predicate; moreover exclusion is by entity
identity: no returned candidate shares the identity (`sameIssue`) of any
issue in the protective-label query result. -/
theorem protected_label_never_candidate (m : Manager) (r : Repo) (i : Issue)
    (prs : List Issue) (bs : List String)
    (hok : (get_prs_branches_to_be_deleted m r).result = .ok (prs, bs))
    (hl : "do-not-delete" ∈ i.labels) :
    i ∉ prs ∧
      (i ∈ runSearch r (protectedQuery r.fullName m.endDate) →
        ∀ x ∈ prs, sameIssue x i = false) := by
  obtain ⟨hprs, -, -⟩ := filter_result_ok m r prs bs hok
  subst hprs
  constructor
  · intro hmem
    rw [mem_issuesToBeRemoved] at hmem
    obtain ⟨hin, hopen, hold, hany⟩ := hmem
    have hipro : i ∈ runSearch r (protectedQuery r.fullName m.endDate) := by
      rw [runSearch, List.mem_filter]
      refine ⟨hin, ?_⟩
      simp only [matchesQuery, protectedQuery, Bool.and_eq_true,
        decide_eq_true_eq]
      exact ⟨⟨hopen, hold⟩, List.elem_iff.mpr hl⟩
    have htrue : ((runSearch r (protectedQuery r.fullName m.endDate)).any
        (fun y => sameIssue i y)) = true :=
      List.any_eq_true.mpr ⟨i, hipro, by simp [sameIssue]⟩
    rw [htrue] at hany
    cases hany
  · intro hipro x hx
    rw [mem_issuesToBeRemoved] at hx
    obtain ⟨-, -, -, hany⟩ := hx
    by_contra hsame
    have hs : sameIssue x i = true := by
      cases hval : sameIssue x i
      · exact absurd hval hsame
      · rfl
    have htrue : ((runSearch r (protectedQuery r.fullName m.endDate)).any
        (fun y => sameIssue x y)) = true :=
      List.any_eq_true.mpr ⟨i, hipro, hs⟩
    rw [htrue] at hany
    cases hany

/-- Witness for C1 at a concrete input: the protected PR is excluded from
the candidate list even though it is old enough. -/
theorem protected_label_never_candidate_witness :
    prProtected ∉ [prStale] ∧
      (prProtected ∈ runSearch repoOne
          (protectedQuery repoOne.fullName mgrWet.endDate) →
        ∀ x ∈ [prStale], sameIssue x prProtected = false) :=
  protected_label_never_candidate mgrWet repoOne prProtected [prStale]
    ["feat-a"] (by rfl) (by decide)

/-- C2: every pull request returned by the staleness filter is open, was
created strictly before the cutoff, and is indeed a pull request. -/
theorem candidates_open_and_stale (m : Manager) (r : Repo)
    (prs : List Issue) (bs : List String)
    (hok : (get_prs_branches_to_be_deleted m r).result = .ok (prs, bs)) :
    ∀ p ∈ prs, p.isOpen = true ∧ p.createdAt < m.endDate ∧ p.isPR = true := by
  obtain ⟨hprs, -, hpr⟩ := filter_result_ok m r prs bs hok
  intro p hp
  have hmem := (mem_issuesToBeRemoved m r p).mp (hprs ▸ hp)
  exact ⟨hmem.2.1, hmem.2.2.1, hpr p hp⟩

/-- Witness for C2 at a concrete input. -/
theorem candidates_open_and_stale_witness :
    prStale.isOpen = true ∧ prStale.createdAt < mgrWet.endDate ∧
      prStale.isPR = true :=
  candidates_open_and_stale mgrWet repoOne [prStale] ["feat-a"] (by rfl)
    prStale (by decide)

/-- C3: the two lists returned by the staleness filter have equal length,
are index-aligned (the k-th branch name is the head ref of the k-th pull
request), and the pull-request list is a sublist of the "older" query
result: filtered in place, not re-sorted. -/
theorem filter_lists_aligned (m : Manager) (r : Repo)
    (prs : List Issue) (bs : List String)
    (hok : (get_prs_branches_to_be_deleted m r).result = .ok (prs, bs)) :
    bs.length = prs.length ∧
      (∀ k (h1 : k < prs.length) (h2 : k < bs.length),
        bs.get ⟨k, h2⟩ = (prs.get ⟨k, h1⟩).headRef) ∧
      prs.Sublist (runSearch r (olderQuery r.fullName m.endDate)) := by
  obtain ⟨hprs, hbs, -⟩ := filter_result_ok m r prs bs hok
  subst hbs
  refine ⟨List.length_map _ _, ?_, ?_⟩
  · intro k h1 h2
    simp
  · rw [hprs]
    unfold issuesToBeRemoved
    exact List.filter_sublist _

/-- Witness for C3 at a concrete input. -/
theorem filter_lists_aligned_witness :
    (["feat-a"] : List String).length = ([prStale] : List Issue).length ∧
      (∀ k (h1 : k < ([prStale] : List Issue).length)
        (h2 : k < (["feat-a"] : List String).length),
        (["feat-a"] : List String).get ⟨k, h2⟩ =
          (([prStale] : List Issue).get ⟨k, h1⟩).headRef) ∧
      ([prStale] : List Issue).Sublist
        (runSearch repoOne (olderQuery repoOne.fullName mgrWet.endDate)) :=
  filter_lists_aligned mgrWet repoOne [prStale] ["feat-a"] (by rfl)

/-- C8: the cutoff is computed as today minus `--date-period` interpreted
as HOURS, and for any positive period it differs from every reading of the
flag as months (a calendar month lasts at least 672 hours = 28 days). -/
theorem cutoff_period_in_hours (today p : Int) (d : Bool) :
    (mkManager today p d).endDate = today - p ∧
      ∀ mh : Int, 672 ≤ mh → 0 < p →
        (mkManager today p d).endDate ≠ monthsCutoff today p mh := by
  refine ⟨rfl, ?_⟩
  intro mh hmh hp heq
  simp only [mkManager, monthsCutoff] at heq
  have h1 : p = p * mh := by linarith
  nlinarith [mul_le_mul_of_nonneg_left hmh hp.le]

/-- Witness for C8: with a 12-"month" period the cutoff is 12 hours before
today, not 12 months. -/
theorem cutoff_period_in_hours_witness :
    (mkManager 1000 12 false).endDate = 1000 - 12 ∧
      (mkManager 1000 12 false).endDate ≠ monthsCutoff 1000 12 720 :=
  ⟨(cutoff_period_in_hours 1000 12 false).1,
   (cutoff_period_in_hours 1000 12 false).2 720 (by norm_num) (by norm_num)⟩

/-! ## Effect-shape lemmas for the drivers -/

theorem labelPRs_effect_shape (d : Bool) (prs : List Issue) :
    ∀ r : Repo, ∀ e ∈ (labelPRs d prs r).effects,
      ∃ rn n ls, e = Effect.setLabels rn n ls := by
  induction prs with
  | nil =>
    intro r e he
    simp [labelPRs] at he
  | cons pr rest ih =>
    intro r e he
    cases hg : get_pull r pr.number with
    | none => simp [labelPRs, hg] at he
    | some pq =>
      cases d with
      | false =>
        simp only [labelPRs, hg, Bool.false_eq_true, if_false,
          List.mem_cons] at he
        rcases he with h1 | h1
        · exact ⟨r.name, pr.number, [staleLabel], h1⟩
        · exact ih _ e h1
      | true =>
        simp only [labelPRs, hg, if_true] at he
        exact ih _ e he

theorem labelPRs_refs (d : Bool) (prs : List Issue) :
    ∀ r : Repo, (labelPRs d prs r).repo.refs = r.refs := by
  induction prs with
  | nil => intro r; simp [labelPRs]
  | cons pr rest ih =>
    intro r
    cases hg : get_pull r pr.number with
    | none => simp [labelPRs, hg]
    | some pq =>
      cases d with
      | false =>
        simp only [labelPRs, hg, Bool.false_eq_true, if_false]
        rw [ih]
        simp [setLabelsOnIssue]
      | true =>
        simp only [labelPRs, hg, if_true]
        exact ih r

theorem filter_effects_shape (m : Manager) (r : Repo) :
    (get_prs_branches_to_be_deleted m r).effects =
      [.searchIssues (olderQuery r.fullName m.endDate),
       .searchIssues (protectedQuery r.fullName m.endDate)] := rfl

theorem labelRepo_effect_shape (m : Manager) (r : Repo) :
    ∀ e ∈ (labelRepo m r).effects,
      (∃ q, e = Effect.searchIssues q ∧ q.createdBefore = m.endDate) ∨
        ∃ rn n ls, e = Effect.setLabels rn n ls := by
  intro e he
  cases hres : (get_prs_branches_to_be_deleted m r).result with
  | error err =>
    simp only [labelRepo, hres, filter_effects_shape, List.mem_cons,
      List.not_mem_nil, or_false] at he
    rcases he with h1 | h1
    · exact Or.inl ⟨_, h1, rfl⟩
    · exact Or.inl ⟨_, h1, rfl⟩
  | ok pair =>
    obtain ⟨prs, bs⟩ := pair
    cases herr : (labelPRs m.dryRun prs r).err with
    | some err2 =>
      simp only [labelRepo, hres, herr, filter_effects_shape,
        List.mem_append, List.mem_cons, List.not_mem_nil, or_false] at he
      rcases he with (h1 | h1) | h1
      · exact Or.inl ⟨_, h1, rfl⟩
      · exact Or.inl ⟨_, h1, rfl⟩
      · exact Or.inr (labelPRs_effect_shape _ _ _ e h1)
    | none =>
      simp only [labelRepo, hres, herr, filter_effects_shape,
        List.mem_append, List.mem_cons, List.not_mem_nil, or_false] at he
      rcases he with (h1 | h1) | h1
      · exact Or.inl ⟨_, h1, rfl⟩
      · exact Or.inl ⟨_, h1, rfl⟩
      · exact Or.inr (labelPRs_effect_shape _ _ _ e h1)

theorem labelRepo_refs (m : Manager) (r : Repo) :
    (labelRepo m r).repo.refs = r.refs := by
  cases hres : (get_prs_branches_to_be_deleted m r).result with
  | error err => simp [labelRepo, hres]
  | ok pair =>
    obtain ⟨prs, bs⟩ := pair
    cases herr : (labelPRs m.dryRun prs r).err with
    | some err2 => simp [labelRepo, hres, herr, labelPRs_refs]
    | none => simp [labelRepo, hres, herr, labelPRs_refs]

theorem labelRepos_effect_shape (m : Manager) (rs : List Repo) :
    ∀ e ∈ (labelRepos m rs).effects,
      (∃ q, e = Effect.searchIssues q ∧ q.createdBefore = m.endDate) ∨
        ∃ rn n ls, e = Effect.setLabels rn n ls := by
  induction rs with
  | nil => intro e he; simp [labelRepos] at he
  | cons r rest ih =>
    intro e he
    cases herr : (labelRepo m r).err with
    | some err =>
      simp only [labelRepos, herr] at he
      exact labelRepo_effect_shape m r e he
    | none =>
      simp only [labelRepos, herr, List.mem_append] at he
      rcases he with h1 | h1
      · exact labelRepo_effect_shape m r e h1
      · exact ih e h1

theorem labelRepos_refs (m : Manager) (rs : List Repo) :
    (labelRepos m rs).repos.map (fun r => r.refs) =
      rs.map (fun r => r.refs) := by
  induction rs with
  | nil => simp [labelRepos]
  | cons r rest ih =>
    cases herr : (labelRepo m r).err with
    | some err => simp [labelRepos, herr, labelRepo_refs]
    | none => simp [labelRepos, herr, labelRepo_refs, ih]

theorem deleteBranches_effect_shape (d : Bool) (nm : String)
    (bs : List String) :
    ∀ r : Repo, ∀ e ∈ (deleteBranches d nm bs r).effects,
      ∃ rp, e = Effect.deleteRef nm rp := by
  induction bs with
  | nil => intro r e he; simp [deleteBranches] at he
  | cons b rest ih =>
    intro r e he
    cases hg : get_git_ref r ("heads/" ++ b) with
    | none => simp [deleteBranches, hg] at he
    | some sha =>
      cases d with
      | false =>
        simp only [deleteBranches, hg, Bool.false_eq_true, if_false,
          List.mem_cons] at he
        rcases he with h1 | h1
        · exact ⟨_, h1⟩
        · exact ih _ e h1
      | true =>
        simp only [deleteBranches, hg, if_true] at he
        exact ih _ e he

theorem deleteRepo_effect_shape (m : Manager) (r : Repo) :
    ∀ e ∈ (deleteRepo m r).effects,
      (∃ q, e = Effect.searchIssues q ∧ q.createdBefore = m.endDate) ∨
        ∃ rn rp, e = Effect.deleteRef rn rp := by
  intro e he
  cases hres : (get_prs_branches_to_be_deleted m r).result with
  | error err =>
    simp only [deleteRepo, hres, filter_effects_shape, List.mem_cons,
      List.not_mem_nil, or_false] at he
    rcases he with h1 | h1
    · exact Or.inl ⟨_, h1, rfl⟩
    · exact Or.inl ⟨_, h1, rfl⟩
  | ok pair =>
    obtain ⟨prs, bs⟩ := pair
    simp only [deleteRepo, hres, filter_effects_shape, List.mem_append,
      List.mem_cons, List.not_mem_nil, or_false] at he
    rcases he with (h1 | h1) | h1
    · exact Or.inl ⟨_, h1, rfl⟩
    · exact Or.inl ⟨_, h1, rfl⟩
    · obtain ⟨rp, hrp⟩ := deleteBranches_effect_shape _ _ _ _ e h1
      exact Or.inr ⟨r.name, rp, hrp⟩

theorem deleteRepos_effect_shape (m : Manager) (rs : List Repo) :
    ∀ e ∈ (deleteRepos m rs).effects,
      (∃ q, e = Effect.searchIssues q ∧ q.createdBefore = m.endDate) ∨
        ∃ rn rp, e = Effect.deleteRef rn rp := by
  induction rs with
  | nil => intro e he; simp [deleteRepos] at he
  | cons r rest ih =>
    intro e he
    cases herr : (deleteRepo m r).err with
    | some err =>
      simp only [deleteRepos, herr] at he
      exact deleteRepo_effect_shape m r e he
    | none =>
      simp only [deleteRepos, herr, List.mem_append] at he
      rcases he with h1 | h1
      · exact deleteRepo_effect_shape m r e h1
      · exact ih e h1

/-! ## Claim theorems: effects of the drivers -/

/-- C7: the label driver never deletes a branch: no execution of
`label_stale_branches` ever issues a git-reference deletion, its only
mutating effects are label applications, and every repository's reference
set is unchanged by the run. -/
theorem label_driver_never_deletes (m : Manager) (w : World) :
    (label_stale_branches m w).effects.filter Effect.isDeleteRef = [] ∧
      (∀ e ∈ (label_stale_branches m w).effects,
        e.isMutating = true → ∃ rn n ls, e = Effect.setLabels rn n ls) ∧
      (label_stale_branches m w).world.repos.map (fun r => r.refs) =
        w.repos.map (fun r => r.refs) := by
  refine ⟨?_, ?_, ?_⟩
  · rw [List.filter_eq_nil_iff]
    intro e he
    rcases labelRepos_effect_shape m w.repos e he with ⟨q, hq, -⟩ | ⟨rn, n, ls, hs⟩
    · subst hq; simp [Effect.isDeleteRef]
    · subst hs; simp [Effect.isDeleteRef]
  · intro e he hmut
    rcases labelRepos_effect_shape m w.repos e he with ⟨q, hq, -⟩ | hs
    · subst hq; simp [Effect.isMutating] at hmut
    · exact hs
  · exact labelRepos_refs m w.repos

/-- C9: the cutoff computed once at initialization (`today` minus the
period, in hours) is the cutoff carried by every search query issued by
either driver, over every repository of the run. -/
theorem cutoff_constant_across_run (today p : Int) (d : Bool) (w : World)
    (q : SearchQuery)
    (h : Effect.searchIssues q ∈
          (label_stale_branches (mkManager today p d) w).effects ∨
         Effect.searchIssues q ∈
          (delete_stale_branches (mkManager today p d) w).effects) :
    q.createdBefore = (mkManager today p d).endDate ∧
      q.createdBefore = today - p := by
  have hc : q.createdBefore = (mkManager today p d).endDate := by
    rcases h with h1 | h1
    · rcases labelRepos_effect_shape (mkManager today p d) w.repos _ h1 with
        ⟨q2, hq2, hcb⟩ | ⟨rn, n, ls, hs⟩
      · cases hq2; exact hcb
      · cases hs
    · rcases deleteRepos_effect_shape (mkManager today p d) w.repos _ h1 with
        ⟨q2, hq2, hcb⟩ | ⟨rn, rp, hs⟩
      · cases hq2; exact hcb
      · cases hs
  exact ⟨hc, hc⟩

/-- Witness for C9: during a label run with cutoff 1000 − 12 = 988 every
issued query carries cutoff 988. -/
theorem cutoff_constant_across_run_witness :
    (olderQuery repoOne.fullName 988).createdBefore =
        (mkManager 1000 12 false).endDate ∧
      (olderQuery repoOne.fullName 988).createdBefore = 1000 - 12 :=
  cutoff_constant_across_run 1000 12 false worldOne
    (olderQuery repoOne.fullName 988) (Or.inl (by decide))

/-- C5 (behavior of the code at the failing input): when the first
candidate branch reference was already deleted externally, the delete
driver does not skip it — the unhandled lookup failure aborts the whole
run: the surviving branch of the same repository is never logged nor
deleted, the sibling repository is never processed, and the organization
state is left untouched. -/
theorem delete_missing_ref_aborts_run :
    (delete_stale_branches mgrWet worldMissingRef).error =
        some (.refNotFound "gone") ∧
      Effect.deleteRef "app" "heads/kept" ∉
        (delete_stale_branches mgrWet worldMissingRef).effects ∧
      LogEntry.branchInfo "kept" "sha-k" ∉
        (delete_stale_branches mgrWet worldMissingRef).logs ∧
      LogEntry.processingRepo "lib" ∉
        (delete_stale_branches mgrWet worldMissingRef).logs ∧
      (delete_stale_branches mgrWet worldMissingRef).world =
        worldMissingRef := by
  decide

/-! ## The net effect of the non-dry label loop -/

@[simp]
theorem relabelIssue_number (ns : List Nat) (i : Issue) :
    (relabelIssue ns i).number = i.number := by
  unfold relabelIssue; split <;> rfl

@[simp]
theorem relabelIssue_isOpen (ns : List Nat) (i : Issue) :
    (relabelIssue ns i).isOpen = i.isOpen := by
  unfold relabelIssue; split <;> rfl

@[simp]
theorem relabelIssue_createdAt (ns : List Nat) (i : Issue) :
    (relabelIssue ns i).createdAt = i.createdAt := by
  unfold relabelIssue; split <;> rfl

@[simp]
theorem relabelIssue_isPR (ns : List Nat) (i : Issue) :
    (relabelIssue ns i).isPR = i.isPR := by
  unfold relabelIssue; split <;> rfl

@[simp]
theorem relabelIssue_headRef (ns : List Nat) (i : Issue) :
    (relabelIssue ns i).headRef = i.headRef := by
  unfold relabelIssue; split <;> rfl

theorem relabelIssue_pos (ns : List Nat) (i : Issue)
    (h : ns.contains i.number = true) :
    relabelIssue ns i = { i with labels := [staleLabel] } := by
  unfold relabelIssue; rw [if_pos h]

theorem relabelIssue_neg (ns : List Nat) (i : Issue)
    (h : ns.contains i.number = false) :
    relabelIssue ns i = i := by
  unfold relabelIssue
  rw [if_neg]
  rw [h]
  exact Bool.false_ne_true

theorem relabelIssue_idem (ns : List Nat) (i : Issue) :
    relabelIssue ns (relabelIssue ns i) = relabelIssue ns i := by
  cases hc : ns.contains i.number with
  | true =>
    rw [relabelIssue_pos ns i hc]
    exact relabelIssue_pos ns { i with labels := [staleLabel] } hc
  | false =>
    rw [relabelIssue_neg ns i hc]
    exact relabelIssue_neg ns i hc

theorem filter_map_comm {α : Type} (g : α → α) (p : α → Bool) :
    ∀ l : List α, (∀ x ∈ l, p (g x) = p x) →
      (l.map g).filter p = (l.filter p).map g := by
  intro l
  induction l with
  | nil => intro h; simp
  | cons a t ih =>
    intro h
    have ha := h a (List.mem_cons_self a t)
    have ht := ih (fun x hx => h x (List.mem_cons_of_mem a hx))
    simp only [List.map_cons, List.filter_cons, ha]
    cases hpa : p a with
    | false => simp [ht]
    | true => simp [ht]

theorem find?_map_isSome {α : Type} (g : α → α) (p : α → Bool)
    (hp : ∀ x, p (g x) = p x) :
    ∀ l : List α, ((l.map g).find? p).isSome = (l.find? p).isSome := by
  intro l
  rw [List.find?_map]
  have hfun : p ∘ g = p := funext hp
  rw [hfun]
  cases l.find? p <;> rfl

theorem get_pull_setLabels_isSome (r : Repo) (n k : Nat) (ls : List String) :
    (get_pull (setLabelsOnIssue r n ls) k).isSome = (get_pull r k).isSome := by
  unfold get_pull setLabelsOnIssue
  dsimp only
  exact find?_map_isSome _ _
    (fun x => by cases hx : x.number == n <;> simp [hx]) r.issues

theorem get_pull_isSome_of_mem (r : Repo) (p : Issue) (hp : p ∈ r.issues) :
    (get_pull r p.number).isSome := by
  rw [get_pull, List.find?_isSome]
  exact ⟨p, hp, by simp⟩

theorem issuesToBeRemoved_subset (m : Manager) (r : Repo) :
    ∀ p ∈ issuesToBeRemoved m r, p ∈ r.issues :=
  fun p hp => ((mem_issuesToBeRemoved m r p).mp hp).1

theorem relabelIssue_after_set (ns : List Nat) (n : Nat) (i : Issue) :
    relabelIssue ns
        (if i.number == n then { i with labels := [staleLabel] } else i) =
      relabelIssue (n :: ns) i := by
  by_cases hn : i.number = n
  · subst hn
    simp only [beq_self_eq_true, if_true]
    unfold relabelIssue
    simp only [List.contains_cons, beq_self_eq_true, Bool.true_or, if_true]
    split <;> rfl
  · have hb : (i.number == n) = false := by
      simp [hn]
    simp only [hb, Bool.false_eq_true, if_false]
    unfold relabelIssue
    simp only [List.contains_cons, hb, Bool.false_or]

theorem labelPRs_wet_repo (prs : List Issue) :
    ∀ r : Repo, (∀ p ∈ prs, (get_pull r p.number).isSome = true) →
      (labelPRs false prs r).repo =
          { r with
            issues :=
              r.issues.map (relabelIssue (prs.map (fun p => p.number))) } ∧
        (labelPRs false prs r).err = none := by
  induction prs with
  | nil =>
    intro r h
    refine ⟨?_, rfl⟩
    show r = _
    have heq : r.issues.map
        (relabelIssue (([] : List Issue).map (fun p => p.number))) =
        r.issues := by
      have h1 : r.issues.map
          (relabelIssue (([] : List Issue).map (fun p => p.number))) =
          r.issues.map id :=
        List.map_congr_left (fun a _ => relabelIssue_neg _ a rfl)
      rw [h1, List.map_id]
    rw [heq]
  | cons pr rest ih =>
    intro r h
    have hpr := h pr (List.mem_cons_self pr rest)
    cases hg : get_pull r pr.number with
    | none =>
      rw [hg] at hpr
      exact absurd hpr (by simp)
    | some pq =>
      have hrest : ∀ p ∈ rest,
          (get_pull (setLabelsOnIssue r pr.number [staleLabel])
            p.number).isSome = true := by
        intro p hp
        rw [get_pull_setLabels_isSome]
        exact h p (List.mem_cons_of_mem pr hp)
      obtain ⟨hrepo, herr⟩ :=
        ih (setLabelsOnIssue r pr.number [staleLabel]) hrest
      constructor
      · simp only [labelPRs, hg, Bool.false_eq_true, if_false]
        rw [hrepo]
        have hiss : (setLabelsOnIssue r pr.number [staleLabel]).issues.map
            (relabelIssue (rest.map (fun p => p.number))) =
            r.issues.map
              (relabelIssue ((pr :: rest).map (fun p => p.number))) := by
          simp only [setLabelsOnIssue, List.map_map, List.map_cons]
          exact List.map_congr_left
            (fun a _ => relabelIssue_after_set _ _ a)
        rw [hiss]
        rfl
      · simp only [labelPRs, hg, Bool.false_eq_true, if_false]
        exact herr

theorem labelPRs_dry_repo (prs : List Issue) :
    ∀ r : Repo, (labelPRs true prs r).repo = r := by
  induction prs with
  | nil => intro r; rfl
  | cons pr rest ih =>
    intro r
    cases hg : get_pull r pr.number with
    | none => simp [labelPRs, hg]
    | some pq =>
      simp only [labelPRs, hg, if_true]
      exact ih r

theorem convertAll_ok_of_all_pr (l : List Issue)
    (h : ∀ i ∈ l, i.isPR = true) :
    convertAll l = .ok (l, l.map (fun i => i.headRef)) := by
  induction l with
  | nil => rfl
  | cons i rest ih =>
    have hi := h i (List.mem_cons_self i rest)
    have hrest := ih (fun j hj => h j (List.mem_cons_of_mem i hj))
    simp [convertAll, asPullRequest, hi, hrest]

theorem candidate_number_no_dnd (m : Manager) (r : Repo) (i : Issue)
    (hin : i ∈ r.issues)
    (hn : (candNumbers m r).contains i.number = true)
    (hopen : i.isOpen = true) (hold : i.createdAt < m.endDate) :
    i.labels.contains "do-not-delete" = false := by
  by_contra hdnd
  have hdnd2 : i.labels.contains "do-not-delete" = true := by
    cases hval : i.labels.contains "do-not-delete" with
    | false => exact absurd hval hdnd
    | true => rfl
  have hipro : i ∈ runSearch r (protectedQuery r.fullName m.endDate) := by
    rw [runSearch, List.mem_filter]
    refine ⟨hin, ?_⟩
    simp only [matchesQuery, protectedQuery, Bool.and_eq_true,
      decide_eq_true_eq]
    exact ⟨⟨hopen, hold⟩, hdnd2⟩
  obtain ⟨c, hc, hcn⟩ : ∃ c ∈ issuesToBeRemoved m r, c.number = i.number := by
    rw [candNumbers] at hn
    obtain ⟨c, hc, hcn⟩ := List.mem_map.mp (List.elem_iff.mp hn)
    exact ⟨c, hc, hcn⟩
  have hcand := (mem_issuesToBeRemoved m r c).mp hc
  have hany : ((runSearch r (protectedQuery r.fullName m.endDate)).any
      (fun y => sameIssue c y)) = true :=
    List.any_eq_true.mpr ⟨i, hipro, by simp [sameIssue, hcn]⟩
  rw [hany] at hcand
  simp at hcand

theorem matchesQuery_older_relabel (ed : Int) (fn : String) (ns : List Nat)
    (i : Issue) :
    matchesQuery (olderQuery fn ed) (relabelIssue ns i) =
      matchesQuery (olderQuery fn ed) i := by
  simp [matchesQuery, olderQuery]

theorem matchesQuery_protected_relabel (m : Manager) (r : Repo) (i : Issue)
    (hin : i ∈ r.issues) :
    matchesQuery (protectedQuery r.fullName m.endDate)
        (relabelIssue (candNumbers m r) i) =
      matchesQuery (protectedQuery r.fullName m.endDate) i := by
  cases hb : (i.isOpen && decide (i.createdAt < m.endDate)) with
  | false =>
    simp only [matchesQuery, protectedQuery, relabelIssue_isOpen,
      relabelIssue_createdAt]
    rw [hb]
    rfl
  | true =>
    cases hc : (candNumbers m r).contains i.number with
    | false => rw [relabelIssue_neg _ _ hc]
    | true =>
      have hb2 := hb
      rw [Bool.and_eq_true] at hb2
      have hopen : i.isOpen = true := hb2.1
      have hold : i.createdAt < m.endDate := of_decide_eq_true hb2.2
      have hdnd := candidate_number_no_dnd m r i hin hc hopen hold
      rw [relabelIssue_pos _ _ hc]
      have hsl : ([staleLabel] : List String).contains "do-not-delete" =
          false := by decide
      simp only [matchesQuery, protectedQuery]
      rw [hdnd, hsl]

theorem issuesToBeRemoved_relabelRepo (m : Manager) (r : Repo) :
    issuesToBeRemoved m (relabelRepo m r) =
      (issuesToBeRemoved m r).map (relabelIssue (candNumbers m r)) := by
  have hfn : (relabelRepo m r).fullName = r.fullName := rfl
  have hiss : (relabelRepo m r).issues =
      r.issues.map (relabelIssue (candNumbers m r)) := rfl
  unfold issuesToBeRemoved
  rw [hfn]
  have hold : runSearch (relabelRepo m r) (olderQuery r.fullName m.endDate) =
      (runSearch r (olderQuery r.fullName m.endDate)).map
        (relabelIssue (candNumbers m r)) := by
    unfold runSearch
    rw [hiss]
    exact filter_map_comm _ _ r.issues
      (fun x _ => matchesQuery_older_relabel _ _ _ x)
  have hpro : runSearch (relabelRepo m r)
        (protectedQuery r.fullName m.endDate) =
      (runSearch r (protectedQuery r.fullName m.endDate)).map
        (relabelIssue (candNumbers m r)) := by
    unfold runSearch
    rw [hiss]
    exact filter_map_comm _ _ r.issues
      (fun x hx => matchesQuery_protected_relabel m r x hx)
  rw [hold, hpro]
  have hany : ∀ x : Issue,
      (((runSearch r (protectedQuery r.fullName m.endDate)).map
          (relabelIssue (candNumbers m r))).any (fun y => sameIssue x y)) =
        ((runSearch r (protectedQuery r.fullName m.endDate)).any
          (fun y => sameIssue x y)) := by
    intro x
    rw [List.any_map]
    have hcomp : ((fun y => sameIssue x y) ∘ relabelIssue (candNumbers m r)) =
        (fun y => sameIssue x y) := by
      funext y
      simp [Function.comp, sameIssue]
    rw [hcomp]
  simp only [hany]
  apply filter_map_comm
  intro x _
  have hsame : ∀ y : Issue,
      sameIssue (relabelIssue (candNumbers m r) x) y = sameIssue x y := by
    intro y
    simp [sameIssue]
  simp only [hsame]

theorem candNumbers_relabelRepo (m : Manager) (r : Repo) :
    candNumbers m (relabelRepo m r) = candNumbers m r := by
  unfold candNumbers
  rw [issuesToBeRemoved_relabelRepo, List.map_map]
  exact List.map_congr_left (fun a _ => by simp [Function.comp])

theorem relabelRepo_idem (m : Manager) (r : Repo) :
    relabelRepo m (relabelRepo m r) = relabelRepo m r := by
  have h1 : relabelRepo m (relabelRepo m r) =
      { relabelRepo m r with
        issues := (relabelRepo m r).issues.map
          (relabelIssue (candNumbers m (relabelRepo m r))) } := rfl
  rw [h1, candNumbers_relabelRepo]
  have h2 : (relabelRepo m r).issues.map (relabelIssue (candNumbers m r)) =
      (relabelRepo m r).issues := by
    have hiss : (relabelRepo m r).issues =
        r.issues.map (relabelIssue (candNumbers m r)) := rfl
    rw [hiss, List.map_map]
    exact List.map_congr_left (fun a _ => relabelIssue_idem _ a)
  rw [h2]

theorem labelRepo_filter_error (m : Manager) (r : Repo) (e : GithubError)
    (herr : (get_prs_branches_to_be_deleted m r).result = .error e) :
    (labelRepo m r).repo = r ∧ (labelRepo m r).err = some e := by
  constructor <;> simp [labelRepo, herr]

theorem labelRepo_wet (m : Manager) (r : Repo) (hd : m.dryRun = false)
    (prs : List Issue) (bs : List String)
    (hok : (get_prs_branches_to_be_deleted m r).result = .ok (prs, bs)) :
    (labelRepo m r).repo = relabelRepo m r ∧ (labelRepo m r).err = none := by
  obtain ⟨hprs, hbs, hpr⟩ := filter_result_ok m r prs bs hok
  subst hprs
  have hsome : ∀ p ∈ issuesToBeRemoved m r,
      (get_pull r p.number).isSome = true := by
    intro p hp
    exact get_pull_isSome_of_mem r p (issuesToBeRemoved_subset m r p hp)
  obtain ⟨hrepo, herr⟩ := labelPRs_wet_repo (issuesToBeRemoved m r) r hsome
  constructor
  · simp only [labelRepo, hok, hd, herr]
    rw [hrepo]
    rfl
  · simp only [labelRepo, hok, hd, herr]

theorem labelRepo_dry_repo (m : Manager) (hd : m.dryRun = true) (r : Repo) :
    (labelRepo m r).repo = r := by
  cases hres : (get_prs_branches_to_be_deleted m r).result with
  | error e => simp [labelRepo, hres]
  | ok pair =>
    obtain ⟨prs, bs⟩ := pair
    cases herr : (labelPRs m.dryRun prs r).err with
    | some e =>
      simp only [labelRepo, hres, herr]
      rw [hd]
      exact labelPRs_dry_repo prs r
    | none =>
      simp only [labelRepo, hres, herr]
      rw [hd]
      exact labelPRs_dry_repo prs r

theorem labelRepos_dry_repos (m : Manager) (hd : m.dryRun = true) :
    ∀ rs : List Repo, (labelRepos m rs).repos = rs := by
  intro rs
  induction rs with
  | nil => rfl
  | cons r rest ih =>
    cases herr : (labelRepo m r).err with
    | some e =>
      simp only [labelRepos, herr]
      rw [labelRepo_dry_repo m hd r]
    | none =>
      simp only [labelRepos, herr]
      rw [labelRepo_dry_repo m hd r, ih]

theorem labelRepos_wet_repos (m : Manager) (hd : m.dryRun = false) :
    ∀ rs : List Repo, (labelRepos m rs).err = none →
      (labelRepos m rs).repos = rs.map (relabelRepo m) := by
  intro rs
  induction rs with
  | nil => intro _; rfl
  | cons r rest ih =>
    intro h
    cases hres : (get_prs_branches_to_be_deleted m r).result with
    | error e =>
      obtain ⟨h1, h2⟩ := labelRepo_filter_error m r e hres
      exfalso
      simp only [labelRepos, h2] at h
      cases h
    | ok pair =>
      obtain ⟨prs, bs⟩ := pair
      obtain ⟨h1, h2⟩ := labelRepo_wet m r hd prs bs hres
      simp only [labelRepos, h2] at h ⊢
      rw [h1, List.map_cons, ih h]

theorem labelRepo_wet_idem (m : Manager) (r : Repo) (hd : m.dryRun = false)
    (prs : List Issue) (bs : List String)
    (hok : (get_prs_branches_to_be_deleted m r).result = .ok (prs, bs)) :
    (labelRepo m (relabelRepo m r)).repo = relabelRepo m r ∧
      (labelRepo m (relabelRepo m r)).err = none := by
  obtain ⟨hprs, hbs, hpr⟩ := filter_result_ok m r prs bs hok
  have hok2 : (get_prs_branches_to_be_deleted m (relabelRepo m r)).result =
      .ok (issuesToBeRemoved m (relabelRepo m r),
        (issuesToBeRemoved m (relabelRepo m r)).map (fun i => i.headRef)) := by
    show convertAll _ = _
    apply convertAll_ok_of_all_pr
    intro i hi
    rw [issuesToBeRemoved_relabelRepo] at hi
    obtain ⟨j, hj, hji⟩ := List.mem_map.mp hi
    rw [← hji, relabelIssue_isPR]
    exact hpr j (by rw [hprs]; exact hj)
  obtain ⟨h1, h2⟩ := labelRepo_wet m (relabelRepo m r) hd _ _ hok2
  rw [relabelRepo_idem] at h1
  exact ⟨h1, h2⟩

theorem labelRepos_wet_idem (m : Manager) (hd : m.dryRun = false) :
    ∀ rs : List Repo,
      (labelRepos m (labelRepos m rs).repos).repos =
        (labelRepos m rs).repos := by
  intro rs
  induction rs with
  | nil => rfl
  | cons r rest ih =>
    cases hres : (get_prs_branches_to_be_deleted m r).result with
    | error e =>
      obtain ⟨h1, h2⟩ := labelRepo_filter_error m r e hres
      simp only [labelRepos, h2, h1]
    | ok pair =>
      obtain ⟨prs, bs⟩ := pair
      obtain ⟨h1, h2⟩ := labelRepo_wet m r hd prs bs hres
      obtain ⟨h3, h4⟩ := labelRepo_wet_idem m r hd prs bs hres
      simp only [labelRepos, h2, h1]
      simp only [labelRepos, h4, h3]
      rw [ih]

/-! ## Claim theorems: idempotence and label replacement -/

/-- C6: the label driver is idempotent: running `label_stale_branches`
twice in succession with no intervening external change leaves the
organization in exactly the state of one run — in particular every pull
request keeps the same label set, because re-applying the label to an
already-labeled PR changes nothing. -/
theorem label_driver_idempotent (m : Manager) (w : World) :
    (label_stale_branches m (label_stale_branches m w).world).world =
      (label_stale_branches m w).world := by
  cases hd : m.dryRun with
  | true =>
    have h1 : ∀ v : World, (label_stale_branches m v).world = v := by
      intro v
      show World.mk (labelRepos m v.repos).repos = v
      rw [labelRepos_dry_repos m hd v.repos]
    rw [h1]
  | false =>
    exact congrArg World.mk (labelRepos_wet_idem m hd w.repos)

/-- C10: in non-dry-run mode a completed label run transforms every
repository by replacing, for every issue whose identity is among the
staleness candidates, its whole label set with exactly
`["will-be-deleted-within-a-week"]` — labels previously present are
removed, not preserved — and leaves every other issue untouched
(`relabelIssue` is exactly that replacement map). -/
theorem label_run_replaces_label_sets (m : Manager) (w : World)
    (hd : m.dryRun = false)
    (hok : (label_stale_branches m w).error = none) :
    (label_stale_branches m w).world.repos =
        w.repos.map (relabelRepo m) ∧
      ∀ r ∈ w.repos, ∀ i ∈ r.issues,
        (candNumbers m r).contains i.number = true →
          (relabelIssue (candNumbers m r) i).labels = [staleLabel] := by
  constructor
  · exact labelRepos_wet_repos m hd w.repos hok
  · intro r _ i _ hb
    rw [relabelIssue_pos _ _ hb]

/-- Witness for C10: the stale PR's pre-existing labels
`["bug", "help-wanted"]` are replaced by exactly the warning label. -/
theorem label_run_replaces_label_sets_witness :
    (label_stale_branches mgrWet worldOne).world.repos =
        worldOne.repos.map (relabelRepo mgrWet) ∧
      ∀ r ∈ worldOne.repos, ∀ i ∈ r.issues,
        (candNumbers mgrWet r).contains i.number = true →
          (relabelIssue (candNumbers mgrWet r) i).labels = [staleLabel] :=
  label_run_replaces_label_sets mgrWet worldOne rfl (by rfl)

/-! ## Dry-run versus non-dry-run -/

theorem labelPRs_dry_effects (prs : List Issue) :
    ∀ r : Repo, (labelPRs true prs r).effects = [] := by
  induction prs with
  | nil => intro r; rfl
  | cons pr rest ih =>
    intro r
    cases hg : get_pull r pr.number with
    | none => simp [labelPRs, hg]
    | some pq =>
      simp only [labelPRs, hg, if_true]
      exact ih r

theorem labelPRs_dry_labeled (prs : List Issue) :
    ∀ r : Repo, (labelPRs true prs r).labeled = [] := by
  induction prs with
  | nil => intro r; rfl
  | cons pr rest ih =>
    intro r
    cases hg : get_pull r pr.number with
    | none => simp [labelPRs, hg]
    | some pq =>
      simp only [labelPRs, hg, if_true]
      exact ih r

theorem labelPRs_dry_wet_logs (prs : List Issue) :
    ∀ rD rW : Repo, rD.name = rW.name →
      (∀ n, (get_pull rD n).isSome = (get_pull rW n).isSome) →
      (labelPRs true prs rD).logs = (labelPRs false prs rW).logs ∧
        (labelPRs true prs rD).err = (labelPRs false prs rW).err := by
  induction prs with
  | nil => intro rD rW h1 h2; exact ⟨rfl, rfl⟩
  | cons pr rest ih =>
    intro rD rW h1 h2
    cases hgD : get_pull rD pr.number with
    | none =>
      cases hgW : get_pull rW pr.number with
      | none =>
        refine ⟨?_, ?_⟩ <;> simp [labelPRs, hgD, hgW]
      | some pq =>
        have hcontra := h2 pr.number
        rw [hgD, hgW] at hcontra
        simp at hcontra
    | some pqD =>
      cases hgW : get_pull rW pr.number with
      | none =>
        have hcontra := h2 pr.number
        rw [hgD, hgW] at hcontra
        simp at hcontra
      | some pqW =>
        have hname : rD.name =
            (setLabelsOnIssue rW pr.number [staleLabel]).name := by
          rw [h1]; rfl
        have hsome : ∀ n, (get_pull rD n).isSome =
            (get_pull (setLabelsOnIssue rW pr.number [staleLabel]) n).isSome := by
          intro n
          rw [get_pull_setLabels_isSome]
          exact h2 n
        obtain ⟨hlogs, herr⟩ :=
          ih rD (setLabelsOnIssue rW pr.number [staleLabel]) hname hsome
        constructor
        · simp only [labelPRs, hgD, hgW, if_true, Bool.false_eq_true,
            if_false]
          rw [h1, hlogs]
        · simp only [labelPRs, hgD, hgW, if_true, Bool.false_eq_true,
            if_false]
          exact herr

theorem labelPRs_logs_scrub (d : Bool) (prs : List Issue) :
    ∀ r : Repo, (labelPRs d prs r).logs.map scrubSummary =
      (labelPRs d prs r).logs := by
  induction prs with
  | nil => intro r; rfl
  | cons pr rest ih =>
    intro r
    cases hg : get_pull r pr.number with
    | none => simp [labelPRs, hg]
    | some pq =>
      cases d with
      | true =>
        simp only [labelPRs, hg, if_true, List.map_cons, scrubSummary]
        rw [ih]
      | false =>
        simp only [labelPRs, hg, Bool.false_eq_true, if_false,
          List.map_cons, scrubSummary]
        rw [ih]

theorem deleteBranches_dry (nm : String) (bs : List String) :
    ∀ r : Repo, (deleteBranches true nm bs r).repo = r ∧
      (deleteBranches true nm bs r).effects = [] := by
  induction bs with
  | nil => intro r; exact ⟨rfl, rfl⟩
  | cons b rest ih =>
    intro r
    cases hg : get_git_ref r ("heads/" ++ b) with
    | none => refine ⟨?_, ?_⟩ <;> simp [deleteBranches, hg]
    | some sha =>
      simp only [deleteBranches, hg, if_true]
      exact ih r

theorem find?_filter_ne {α : Type} (p q : α → Bool)
    (h : ∀ x, q x = true → p x = true) :
    ∀ l : List α, (l.filter p).find? q = l.find? q := by
  intro l
  induction l with
  | nil => rfl
  | cons a t ih =>
    cases hq : q a with
    | true =>
      have hpa := h a hq
      simp [List.filter_cons, hpa, List.find?_cons, hq, ih]
    | false =>
      cases hpa : p a with
      | true => simp [List.filter_cons, hpa, List.find?_cons, hq, ih]
      | false => simp [List.filter_cons, hpa, List.find?_cons, hq, ih]

theorem get_git_ref_delete_other (r : Repo) (k k2 : String) (hne : k2 ≠ k) :
    get_git_ref (deleteRefByName r k) k2 = get_git_ref r k2 := by
  unfold get_git_ref deleteRefByName
  dsimp only
  rw [find?_filter_ne]
  intro x hx
  have hx2 : x.1 = k2 := by simpa using hx
  simp [hx2, hne]

theorem heads_append_inj (b b2 : String) (h : b ≠ b2) :
    ("heads/" ++ b : String) ≠ "heads/" ++ b2 := by
  intro he
  apply h
  have hd := congrArg String.data he
  rw [String.data_append, String.data_append] at hd
  exact String.ext (List.append_cancel_left hd)

theorem deleteBranches_dry_wet (nm : String) (bs : List String) :
    ∀ rD rW : Repo, bs.Nodup →
      (∀ b ∈ bs, get_git_ref rD ("heads/" ++ b) =
        get_git_ref rW ("heads/" ++ b)) →
      (deleteBranches true nm bs rD).logs =
          (deleteBranches false nm bs rW).logs ∧
        (deleteBranches true nm bs rD).err =
          (deleteBranches false nm bs rW).err := by
  induction bs with
  | nil => intro rD rW _ _; exact ⟨rfl, rfl⟩
  | cons b rest ih =>
    intro rD rW hnd hagree
    have hb := hagree b (List.mem_cons_self b rest)
    cases hgD : get_git_ref rD ("heads/" ++ b) with
    | none =>
      have hgW : get_git_ref rW ("heads/" ++ b) = none := by
        rw [← hb, hgD]
      refine ⟨?_, ?_⟩ <;> simp [deleteBranches, hgD, hgW]
    | some sha =>
      have hgW : get_git_ref rW ("heads/" ++ b) = some sha := by
        rw [← hb, hgD]
      have hrest : ∀ b2 ∈ rest, get_git_ref rD ("heads/" ++ b2) =
          get_git_ref (deleteRefByName rW ("heads/" ++ b))
            ("heads/" ++ b2) := by
        intro b2 hb2
        have hne : b2 ≠ b := by
          intro he
          exact (List.nodup_cons.mp hnd).1 (he ▸ hb2)
        rw [get_git_ref_delete_other _ _ _ (heads_append_inj b2 b hne)]
        exact hagree b2 (List.mem_cons_of_mem b hb2)
      obtain ⟨hlogs, herr⟩ :=
        ih rD (deleteRefByName rW ("heads/" ++ b))
          (List.nodup_cons.mp hnd).2 hrest
      constructor
      · simp only [deleteBranches, hgD, hgW, if_true, Bool.false_eq_true,
          if_false]
        rw [hlogs]
      · simp only [deleteBranches, hgD, hgW, if_true, Bool.false_eq_true,
          if_false]
        exact herr

@[simp]
theorem isMutating_search (q : SearchQuery) :
    (Effect.searchIssues q).isMutating = false := rfl

@[simp]
theorem isMutating_setLabels (rn : String) (n : Nat) (ls : List String) :
    (Effect.setLabels rn n ls).isMutating = true := rfl

@[simp]
theorem isMutating_deleteRef (rn rp : String) :
    (Effect.deleteRef rn rp).isMutating = true := rfl

@[simp]
theorem scrub_processingRepo (n : String) :
    scrubSummary (.processingRepo n) = .processingRepo n := rfl

@[simp]
theorem scrub_totalBranches (n : String) (c : Nat) :
    scrubSummary (.totalBranches n c) = .totalBranches n c := rfl

@[simp]
theorem scrub_gettingBranches (n : String) :
    scrubSummary (.gettingBranches n) = .gettingBranches n := rfl

@[simp]
theorem scrub_applyingLabel (k : Nat) (n : String) :
    scrubSummary (.applyingLabel k n) = .applyingLabel k n := rfl

@[simp]
theorem scrub_branchesLabeled (n : String) (bs : List String) :
    scrubSummary (.branchesLabeled n bs) = .branchesLabeled n [] := rfl

@[simp]
theorem scrub_deletingOlder (ed : Int) (n : String) :
    scrubSummary (.deletingOlder ed n) = .deletingOlder ed n := rfl

@[simp]
theorem scrub_branchInfo (b sha : String) :
    scrubSummary (.branchInfo b sha) = .branchInfo b sha := rfl

theorem labelRepo_dry_wet (ed : Int) (r : Repo) :
    ((labelRepo ⟨ed, true⟩ r).effects.filter Effect.isMutating = []) ∧
      ((labelRepo ⟨ed, true⟩ r).effects.filter (fun e => !(e.isMutating)) =
        (labelRepo ⟨ed, false⟩ r).effects.filter (fun e => !(e.isMutating))) ∧
      ((labelRepo ⟨ed, true⟩ r).logs =
        (labelRepo ⟨ed, false⟩ r).logs.map scrubSummary) ∧
      ((labelRepo ⟨ed, true⟩ r).err = (labelRepo ⟨ed, false⟩ r).err) := by
  cases hres : (get_prs_branches_to_be_deleted ⟨ed, false⟩ r).result with
  | error e =>
    have hresD : (get_prs_branches_to_be_deleted ⟨ed, true⟩ r).result =
        .error e := hres
    refine ⟨?_, ?_, ?_, ?_⟩
    all_goals simp only [labelRepo, hres, hresD]
    all_goals simp [get_prs_branches_to_be_deleted]
  | ok pair =>
    obtain ⟨prs, bs⟩ := pair
    have hresD : (get_prs_branches_to_be_deleted ⟨ed, true⟩ r).result =
        .ok (prs, bs) := hres
    obtain ⟨hlogsEq, herrEq⟩ := labelPRs_dry_wet_logs prs r r rfl (fun n => rfl)
    have hdryEff := labelPRs_dry_effects prs r
    have hdryLab := labelPRs_dry_labeled prs r
    have hwetFilter : (labelPRs false prs r).effects.filter
        (fun e => !(e.isMutating)) = [] := by
      rw [List.filter_eq_nil_iff]
      intro e he
      obtain ⟨rn, n, ls, hse⟩ := labelPRs_effect_shape false prs r e he
      rw [hse]
      simp
    cases herrW : (labelPRs false prs r).err with
    | some e2 =>
      have herrD : (labelPRs true prs r).err = some e2 := by
        rw [herrEq, herrW]
      refine ⟨?_, ?_, ?_, ?_⟩
      all_goals simp only [labelRepo, hres, hresD, herrD, herrW]
      all_goals simp [get_prs_branches_to_be_deleted, hdryEff, hdryLab,
        hwetFilter, hlogsEq, labelPRs_logs_scrub, List.filter_append,
        List.map_append]
    | none =>
      have herrD : (labelPRs true prs r).err = none := by
        rw [herrEq, herrW]
      refine ⟨?_, ?_, ?_, ?_⟩
      all_goals simp only [labelRepo, hres, hresD, herrD, herrW]
      all_goals simp [get_prs_branches_to_be_deleted, hdryEff, hdryLab,
        hwetFilter, hlogsEq, labelPRs_logs_scrub, List.filter_append,
        List.map_append]

theorem labelRepos_dry_wet (ed : Int) :
    ∀ rs : List Repo,
      ((labelRepos ⟨ed, true⟩ rs).effects.filter Effect.isMutating = []) ∧
        ((labelRepos ⟨ed, true⟩ rs).effects.filter (fun e => !(e.isMutating)) =
          (labelRepos ⟨ed, false⟩ rs).effects.filter
            (fun e => !(e.isMutating))) ∧
        ((labelRepos ⟨ed, true⟩ rs).logs =
          (labelRepos ⟨ed, false⟩ rs).logs.map scrubSummary) ∧
        ((labelRepos ⟨ed, true⟩ rs).err = (labelRepos ⟨ed, false⟩ rs).err) := by
  intro rs
  induction rs with
  | nil => exact ⟨rfl, rfl, rfl, rfl⟩
  | cons r rest ih =>
    obtain ⟨hMut, hSearch, hLogs, hErr⟩ := labelRepo_dry_wet ed r
    obtain ⟨ihMut, ihSearch, ihLogs, ihErr⟩ := ih
    cases herrW : (labelRepo ⟨ed, false⟩ r).err with
    | some e =>
      have herrD : (labelRepo ⟨ed, true⟩ r).err = some e := by
        rw [hErr, herrW]
      refine ⟨?_, ?_, ?_, ?_⟩
      · simp only [labelRepos, herrD, herrW]
        exact hMut
      · simp only [labelRepos, herrD, herrW]
        exact hSearch
      · simp only [labelRepos, herrD, herrW]
        exact hLogs
      · simp [labelRepos, herrD, herrW]
    | none =>
      have herrD : (labelRepo ⟨ed, true⟩ r).err = none := by
        rw [hErr, herrW]
      refine ⟨?_, ?_, ?_, ?_⟩
      all_goals simp only [labelRepos, herrD, herrW]
      · rw [List.filter_append, hMut, ihMut]
        rfl
      · rw [List.filter_append, List.filter_append, hSearch, ihSearch]
      · rw [List.map_append, hLogs, ihLogs]
      · exact ihErr

theorem deleteRepo_dry_wet (ed : Int) (r : Repo)
    (hnd : ((issuesToBeRemoved ⟨ed, false⟩ r).map
      (fun i => i.headRef)).Nodup) :
    ((deleteRepo ⟨ed, true⟩ r).effects.filter Effect.isMutating = []) ∧
      ((deleteRepo ⟨ed, true⟩ r).effects.filter (fun e => !(e.isMutating)) =
        (deleteRepo ⟨ed, false⟩ r).effects.filter (fun e => !(e.isMutating))) ∧
      ((deleteRepo ⟨ed, true⟩ r).logs = (deleteRepo ⟨ed, false⟩ r).logs) ∧
      ((deleteRepo ⟨ed, true⟩ r).err = (deleteRepo ⟨ed, false⟩ r).err) := by
  cases hres : (get_prs_branches_to_be_deleted ⟨ed, false⟩ r).result with
  | error e =>
    have hresD : (get_prs_branches_to_be_deleted ⟨ed, true⟩ r).result =
        .error e := hres
    refine ⟨?_, ?_, ?_, ?_⟩
    all_goals simp only [deleteRepo, hres, hresD]
    all_goals simp [get_prs_branches_to_be_deleted]
  | ok pair =>
    obtain ⟨prs, bs⟩ := pair
    have hresD : (get_prs_branches_to_be_deleted ⟨ed, true⟩ r).result =
        .ok (prs, bs) := hres
    obtain ⟨hprs, hbs, -⟩ := filter_result_ok ⟨ed, false⟩ r prs bs hres
    have hbnd : bs.Nodup := by
      rw [hbs, hprs]
      exact hnd
    obtain ⟨hDrepo, hDeff⟩ := deleteBranches_dry r.name bs r
    obtain ⟨hlogsEq, herrEq⟩ :=
      deleteBranches_dry_wet r.name bs r r hbnd (fun b _ => rfl)
    have hwetFilter : (deleteBranches false r.name bs r).effects.filter
        (fun e => !(e.isMutating)) = [] := by
      rw [List.filter_eq_nil_iff]
      intro e he
      obtain ⟨rp, hse⟩ := deleteBranches_effect_shape false r.name bs r e he
      rw [hse]
      simp
    refine ⟨?_, ?_, ?_, ?_⟩
    all_goals simp only [deleteRepo, hres, hresD]
    · simp [get_prs_branches_to_be_deleted, hDeff]
    · simp [get_prs_branches_to_be_deleted, hDeff, hwetFilter,
        List.filter_append]
    · simp [get_prs_branches_to_be_deleted, hlogsEq]
    · exact herrEq

theorem deleteRepos_dry_wet (ed : Int) :
    ∀ rs : List Repo,
      (∀ r ∈ rs, ((issuesToBeRemoved ⟨ed, false⟩ r).map
        (fun i => i.headRef)).Nodup) →
      ((deleteRepos ⟨ed, true⟩ rs).effects.filter Effect.isMutating = []) ∧
        ((deleteRepos ⟨ed, true⟩ rs).effects.filter
            (fun e => !(e.isMutating)) =
          (deleteRepos ⟨ed, false⟩ rs).effects.filter
            (fun e => !(e.isMutating))) ∧
        ((deleteRepos ⟨ed, true⟩ rs).logs =
          (deleteRepos ⟨ed, false⟩ rs).logs) ∧
        ((deleteRepos ⟨ed, true⟩ rs).err =
          (deleteRepos ⟨ed, false⟩ rs).err) := by
  intro rs
  induction rs with
  | nil => intro _; exact ⟨rfl, rfl, rfl, rfl⟩
  | cons r rest ih =>
    intro hnd
    obtain ⟨hMut, hSearch, hLogs, hErr⟩ :=
      deleteRepo_dry_wet ed r (hnd r (List.mem_cons_self r rest))
    obtain ⟨ihMut, ihSearch, ihLogs, ihErr⟩ :=
      ih (fun r2 h2 => hnd r2 (List.mem_cons_of_mem r h2))
    cases herrW : (deleteRepo ⟨ed, false⟩ r).err with
    | some e =>
      have herrD : (deleteRepo ⟨ed, true⟩ r).err = some e := by
        rw [hErr, herrW]
      refine ⟨?_, ?_, ?_, ?_⟩
      · simp only [deleteRepos, herrD, herrW]
        exact hMut
      · simp only [deleteRepos, herrD, herrW]
        exact hSearch
      · simp only [deleteRepos, herrD, herrW]
        exact hLogs
      · simp [deleteRepos, herrD, herrW]
    | none =>
      have herrD : (deleteRepo ⟨ed, true⟩ r).err = none := by
        rw [hErr, herrW]
      refine ⟨?_, ?_, ?_, ?_⟩
      · simp only [deleteRepos, herrD, herrW]
        rw [List.filter_append, hMut, ihMut]
        rfl
      · simp only [deleteRepos, herrD, herrW]
        rw [List.filter_append, List.filter_append, hSearch, ihSearch]
      · simp only [deleteRepos, herrD, herrW]
        rw [hLogs, ihLogs]
      · simp only [deleteRepos, herrD, herrW]
        exact ihErr

/-! ## Claim theorems: the dry-run invariant -/

/-- C4 counterexample: against the same input state (one repository with
one stale candidate PR), the label driver's log output under dry-run
differs from the non-dry-run log output — the per-repository summary line
reports the empty list in dry-run because `branches_labeled` is only
appended to inside the `if not self.dry_run` block. -/
theorem dryrun_label_logs_differ :
    (label_stale_branches mgrDry worldOne).logs ≠
      (label_stale_branches mgrWet worldOne).logs := by
  decide

/-- C4 (amended): against the same input state, enabling dry-run makes
zero mutating remote calls for either driver and issues exactly the same
search queries (the candidate-set computations coincide), and both runs
abort identically; the delete driver's log output matches non-dry-run
exactly provided no repository's candidate branch list repeats a branch
name (with a repeated name the non-dry-run deletion makes the second
lookup of that name fail, diverging from dry-run), while the label
driver's log output matches only up to the per-repository
`branches_labeled` summary line, which reports the empty list under
dry-run. -/
theorem dryrun_invariant_amended (ed : Int) (w : World)
    (hnd : ∀ r ∈ w.repos, ((issuesToBeRemoved ⟨ed, false⟩ r).map
      (fun i => i.headRef)).Nodup) :
    ((label_stale_branches ⟨ed, true⟩ w).effects.filter
        Effect.isMutating = [] ∧
      (delete_stale_branches ⟨ed, true⟩ w).effects.filter
        Effect.isMutating = []) ∧
      ((label_stale_branches ⟨ed, true⟩ w).effects.filter
          (fun e => !(e.isMutating)) =
        (label_stale_branches ⟨ed, false⟩ w).effects.filter
          (fun e => !(e.isMutating))) ∧
      ((delete_stale_branches ⟨ed, true⟩ w).effects.filter
          (fun e => !(e.isMutating)) =
        (delete_stale_branches ⟨ed, false⟩ w).effects.filter
          (fun e => !(e.isMutating))) ∧
      ((label_stale_branches ⟨ed, true⟩ w).logs =
        (label_stale_branches ⟨ed, false⟩ w).logs.map scrubSummary) ∧
      ((delete_stale_branches ⟨ed, true⟩ w).logs =
        (delete_stale_branches ⟨ed, false⟩ w).logs) ∧
      ((label_stale_branches ⟨ed, true⟩ w).error =
        (label_stale_branches ⟨ed, false⟩ w).error) ∧
      ((delete_stale_branches ⟨ed, true⟩ w).error =
        (delete_stale_branches ⟨ed, false⟩ w).error) := by
  obtain ⟨lMut, lSearch, lLogs, lErr⟩ := labelRepos_dry_wet ed w.repos
  obtain ⟨dMut, dSearch, dLogs, dErr⟩ := deleteRepos_dry_wet ed w.repos hnd
  exact ⟨⟨lMut, dMut⟩, lSearch, dSearch, lLogs, dLogs, lErr, dErr⟩

/-- Witness for the amended C4 at the concrete one-repository state. -/
theorem dryrun_invariant_amended_witness :
    ((label_stale_branches ⟨500, true⟩ worldOne).effects.filter
        Effect.isMutating = [] ∧
      (delete_stale_branches ⟨500, true⟩ worldOne).effects.filter
        Effect.isMutating = []) ∧
      ((label_stale_branches ⟨500, true⟩ worldOne).effects.filter
          (fun e => !(e.isMutating)) =
        (label_stale_branches ⟨500, false⟩ worldOne).effects.filter
          (fun e => !(e.isMutating))) ∧
      ((delete_stale_branches ⟨500, true⟩ worldOne).effects.filter
          (fun e => !(e.isMutating)) =
        (delete_stale_branches ⟨500, false⟩ worldOne).effects.filter
          (fun e => !(e.isMutating))) ∧
      ((label_stale_branches ⟨500, true⟩ worldOne).logs =
        (label_stale_branches ⟨500, false⟩ worldOne).logs.map scrubSummary) ∧
      ((delete_stale_branches ⟨500, true⟩ worldOne).logs =
        (delete_stale_branches ⟨500, false⟩ worldOne).logs) ∧
      ((label_stale_branches ⟨500, true⟩ worldOne).error =
        (label_stale_branches ⟨500, false⟩ worldOne).error) ∧
      ((delete_stale_branches ⟨500, true⟩ worldOne).error =
        (delete_stale_branches ⟨500, false⟩ worldOne).error) :=
  dryrun_invariant_amended 500 worldOne (by decide)
